import Mathlib

/-!
Verification model of the measurement-constrained shape solver in
`makehuman/generate_human.py`: the `Ruler` measurement table, the three
binary-search root finders (`adjust_limb_to_target`, `adjust_height_to_target`,
`adjust_limb_quietly`) and the outer coordinate-descent loop
(`configure_human_exact`) with its torso decoupling heuristic.

Floating-point arithmetic of the solver machinery is modelled by exact
rationals; the geometric formula of `Ruler.getMeasure` is modelled over the
reals.  The external deformation engine (the `human` object of MakeHuman,
which is not part of this repository) is abstracted by an environment `Env`
of measurement responses, and every model mutation that triggers a
re-deformation (`human.setHeight`, or `modifier.setValue` followed by
`human.applyAllTargets`) increments an explicit deformation counter on the
model state.  A Python `KeyError` that a piece of code may raise is modelled
by an `Option`/`Except` error value; catching the error corresponds to
matching on it, an uncaught error propagates as the `.error` case.
-/

namespace GenerateHuman

/-- Search state of one binary-search root-finder call: the bracket
`low`, `high` and the best-so-far `best_value`, `best_error`.
`best_error = none` models the initial `float('inf')`. -/
structure SearchState where
  low : ℚ
  high : ℚ
  best_value : ℚ
  best_error : Option ℚ
deriving DecidableEq

/-- Python's `abs(x)` on rationals. -/
def qabs (x : ℚ) : ℚ := if x < 0 then -x else x

/-- Python's `max(a, b)` on rationals. -/
def qmax (a b : ℚ) : ℚ := if a ≤ b then b else a

/-- Python's `min(a, b)` on rationals. -/
def qmin (a b : ℚ) : ℚ := if a ≤ b then a else b

/-- The comparison `error < best_error`, with `none` playing `float('inf')`. -/
def errIsLt (e : ℚ) : Option ℚ → Bool
  | none => true
  | some b => decide (e < b)

/-- Ordering on recorded best errors, `none` again being `float('inf')`. -/
def obLeB : Option ℚ → Option ℚ → Bool
  | _, none => true
  | none, some _ => false
  | some a, some b => decide (a ≤ b)

/-- The update `if error < best_error: best_error = error; best_value = mid`
performed by every iteration of each of the three root finders. -/
def updateBest (mid e : ℚ) (s : SearchState) : SearchState :=
  if errIsLt e s.best_error then { s with best_value := mid, best_error := some e } else s

/-- One loop body of the binary search, shared verbatim by
`adjust_limb_to_target`, `adjust_height_to_target` and `adjust_limb_quietly`:
given the value `cur` measured at the midpoint `(low + high) / 2`, perform the
best-so-far update, then either signal early termination (`true`) when
`|cur - target| < tol`, or narrow the bracket (`low = mid` when
`cur < target`, else `high = mid`). -/
def bisectUpdate (cur target tol : ℚ) (s : SearchState) : SearchState × Bool :=
  let mid := (s.low + s.high) / 2
  let e := qabs (cur - target)
  let s1 := updateBest mid e s
  if e < tol then (s1, true)
  else if cur < target then ({ s1 with low := mid }, false)
  else ({ s1 with high := mid }, false)

/-- One root-finder iteration against an abstract evaluation function `eval`
(the composite side effect "set the parameter, re-deform, measure" of the
source loops, the `eval_fn` of the specification). -/
def rfStep (eval : ℚ → ℚ) (target tol : ℚ) (s : SearchState) : SearchState × Bool :=
  bisectUpdate (eval ((s.low + s.high) / 2)) target tol s

/-- Successor search state of one root-finder iteration; `none` when the
iteration returned early. -/
def rfNext (eval : ℚ → ℚ) (target tol : ℚ) (s : SearchState) : Option SearchState :=
  if (rfStep eval target tol s).2 then none else some (rfStep eval target tol s).1

/-- Search state reached after `n` completed iterations of one root-finder
call started at `s0`; `none` once the call has returned early. -/
def rfStates (eval : ℚ → ℚ) (target tol : ℚ) (s0 : SearchState) : ℕ → Option SearchState
  | 0 => some s0
  | n + 1 => (rfStates eval target tol s0 n).bind (rfNext eval target tol)

/-- The mutable model state the solver owns: the named modifier values, the
height parameter, and a counter of deformation steps (each `applyAllTargets`
and each `setHeight` is one such step). -/
structure Model where
  modifiers : List (String × ℚ)
  heightVal : ℚ
  deformCount : ℕ
deriving DecidableEq

/-- `human.getModifier(name)`: `none` models the `KeyError` raised on a
missing modifier. -/
def getModifier (m : Model) (name : String) : Option ℚ :=
  (m.modifiers.find? fun p => p.1 == name).map (·.2)

/-- `modifier.setValue(v)` for the named modifier. -/
def setValue (m : Model) (name : String) (v : ℚ) : Model :=
  { m with modifiers := m.modifiers.map fun p => if p.1 == name then (p.1, v) else p }

/-- `human.applyAllTargets()`: one deformation step. -/
def applyAllTargets (m : Model) : Model :=
  { m with deformCount := m.deformCount + 1 }

/-- `human.setHeight(v, updateModifier=True)`: sets the height parameter and
re-deforms (one deformation step). -/
def setHeight (m : Model) (v : ℚ) : Model :=
  { m with heightVal := v, deformCount := m.deformCount + 1 }

/-- External responses of the deformation engine, which lives outside this
repository: `human.getHeightCm()`, the metric value the ruler reads off the
deformed mesh for a measurement name present in the table, and
`modifier.getMin()`. -/
structure Env where
  heightCm : Model → ℚ
  measureVal : Model → String → ℚ
  modMin : String → ℚ

/-- Measurement/modifier name of the upper arm, as in the source. -/
def upperArmName : String := "measure/measure-upperarm-length-decr|incr"

/-- Measurement/modifier name of the lower arm, as in the source. -/
def lowerArmName : String := "measure/measure-lowerarm-length-decr|incr"

/-- Measurement/modifier name of the upper leg, as in the source. -/
def upperLegName : String := "measure/measure-upperleg-height-decr|incr"

/-- Measurement/modifier name of the lower leg, as in the source. -/
def lowerLegName : String := "measure/measure-lowerleg-height-decr|incr"

/-- Name of the torso vertical-scale modifier used by the decoupling
heuristic. -/
def torsoName : String := "torso/torso-scale-vert-decr|incr"

/-- The static landmark table `Ruler.Measures` built in `Ruler.__init__`. -/
def Measures (name : String) : Option (List ℕ) :=
  if name = upperArmName then some [8274, 10037]
  else if name = lowerArmName then some [10040, 10548]
  else if name = upperLegName then some [10970, 11230]
  else if name = lowerLegName then some [11225, 12820]
  else none

/-- `ruler.getMeasure(human, name, "metric")` as seen by the solver: the
table lookup `self.Measures[measurementname]` raises `KeyError` when the
name is unknown, otherwise the metric value is the engine's response
`env.measureVal`. -/
def rulerMeasureQ (env : Env) (m : Model) (name : String) : Except String ℚ :=
  match Measures name with
  | some _ => .ok (env.measureVal m name)
  | none => .error "KeyError"

/-- Common loop of `adjust_limb_to_target` and `adjust_limb_quietly`:
per iteration `mid = (low + high) / 2`, `modifier.setValue(mid)`,
`human.applyAllTargets()`, `current = ruler.getMeasure(...)`, then the shared
`bisectUpdate` body (best-so-far update, early return of `mid` when the error
is below the threshold, bracket narrowing), and on fuel exhaustion the final
`modifier.setValue(best_value); human.applyAllTargets(); return best_value`.
An uncaught `KeyError` from the measurement table lookup is the `.error`
case, carrying the model state at the moment of the raise. -/
def limbSearchGo (env : Env) (mname mdf : String) (target thresh : ℚ) :
    ℕ → SearchState → Model → Except Model (Model × Option ℚ)
  | 0, s, m => .ok (applyAllTargets (setValue m mdf s.best_value), some s.best_value)
  | n + 1, s, m =>
    let mid := (s.low + s.high) / 2
    let m1 := applyAllTargets (setValue m mdf mid)
    match rulerMeasureQ env m1 mname with
    | .error _ => .error m1
    | .ok cur =>
      match bisectUpdate cur target thresh s with
      | (_, true) => .ok (m1, some mid)
      | (s1, false) => limbSearchGo env mname mdf target thresh n s1 m1

/-- `adjust_limb_to_target(human, modifier_name, measurement_name, target_cm,
tolerance, max_iterations)`: a missing modifier is caught (`KeyError` from
`getModifier`) and the call returns `None` without touching the model;
otherwise binary search from `low, high = 0.0, 1.0`, `best_value = 0.5`,
comparing `error < tolerance`. -/
def adjust_limb_to_target (env : Env) (m : Model) (modifier_name measurement_name : String)
    (target tol : ℚ) (maxIter : ℕ) : Except Model (Model × Option ℚ) :=
  match getModifier m modifier_name with
  | none => .ok (m, none)
  | some _ =>
    limbSearchGo env measurement_name modifier_name target tol maxIter ⟨0, 1, 1/2, none⟩ m

/-- `adjust_limb_quietly(modifier_name, measurement_name, target_cm,
inner_max_iter=15)` inside `configure_human_exact`: a missing modifier is
caught and yields `None`; otherwise `low = -1.0` (or `0.0` when
`modifier.getMin() >= 0`), `high = 1.0`, `best_value = 0.0`, 15 iterations,
comparing `error < tolerance * 0.5`. -/
def adjust_limb_quietly (env : Env) (m : Model) (modifier_name measurement_name : String)
    (target tol : ℚ) : Except Model (Model × Option ℚ) :=
  match getModifier m modifier_name with
  | none => .ok (m, none)
  | some _ =>
    let low : ℚ := if env.modMin modifier_name ≥ 0 then 0 else -1
    limbSearchGo env measurement_name modifier_name target (tol * (1/2)) 15 ⟨low, 1, 0, none⟩ m

/-- Loop of `adjust_height_to_target`: per iteration `mid = (low + high) / 2`,
`human.setHeight(mid, updateModifier=True)`, `current = human.getHeightCm()`,
the shared `bisectUpdate` body, and on fuel exhaustion the final
`human.setHeight(best_value); return best_value`. -/
def adjustHeightGo (env : Env) (target itol : ℚ) :
    ℕ → SearchState → Model → Model × ℚ
  | 0, s, m => (setHeight m s.best_value, s.best_value)
  | n + 1, s, m =>
    let mid := (s.low + s.high) / 2
    let m1 := setHeight m mid
    let cur := env.heightCm m1
    match bisectUpdate cur target itol s with
    | (_, true) => (m1, mid)
    | (s1, false) => adjustHeightGo env target itol n s1 m1

/-- `adjust_height_to_target(target_cm, inner_tolerance=0.3,
inner_max_iter=15)` inside `configure_human_exact`: binary search from
`low, high = 0.0, 1.0`, `best_value = 0.5`. -/
def adjust_height_to_target (env : Env) (m : Model) (target : ℚ) : Model × ℚ :=
  adjustHeightGo env target (3/10) 15 ⟨0, 1, 1/2, none⟩ m

/-- The five target measurements handed to `configure_human_exact`. -/
structure Targets where
  height : ℚ
  upper_arm : ℚ
  lower_arm : ℚ
  upper_leg : ℚ
  lower_leg : ℚ
deriving DecidableEq

/-- One entry of the `get_all_errors()` report:
`{"current": current, "target": target, "error": abs(current - target)}`. -/
structure ErrEntry where
  current : ℚ
  target : ℚ
  error : ℚ
deriving DecidableEq

/-- The five-entry report built by `get_all_errors()`. -/
structure Errors5 where
  height : ErrEntry
  upper_arm : ErrEntry
  lower_arm : ErrEntry
  upper_leg : ErrEntry
  lower_leg : ErrEntry
deriving DecidableEq

/-- One report entry with `error = abs(current - target)`. -/
def mkErr (cur tgt : ℚ) : ErrEntry := ⟨cur, tgt, qabs (cur - tgt)⟩

/-- `get_all_errors()`: height via `human.getHeightCm()`, the four limbs via
`ruler.getMeasure(human, name, "metric")` (whose table lookup could raise). -/
def get_all_errors (env : Env) (m : Model) (t : Targets) : Except String Errors5 :=
  match rulerMeasureQ env m upperArmName, rulerMeasureQ env m lowerArmName,
        rulerMeasureQ env m upperLegName, rulerMeasureQ env m lowerLegName with
  | .ok ua, .ok la, .ok ul, .ok ll =>
    .ok ⟨mkErr (env.heightCm m) t.height, mkErr ua t.upper_arm, mkErr la t.lower_arm,
         mkErr ul t.upper_leg, mkErr ll t.lower_leg⟩
  | _, _, _, _ => .error "KeyError"

/-- `all_within_tolerance(errors)`: all five errors strictly below `tolerance`. -/
def all_within_tolerance (tol : ℚ) (e : Errors5) : Bool :=
  decide (e.height.error < tol) && decide (e.upper_arm.error < tol) &&
  decide (e.lower_arm.error < tol) && decide (e.upper_leg.error < tol) &&
  decide (e.lower_leg.error < tol)

/-- Step 4 of the outer loop of `configure_human_exact`: when
`height_error >= tolerance`, fetch the torso vertical-scale modifier
(a `KeyError` is caught by `except KeyError: pass`), re-read the current
height, and when `abs(height_cm - current_height) > tolerance` nudge the
torso value by `0.1` (or `-0.1` when the difference is negative), clamped by
`max(-1.0, min(1.0, ...))`, then `human.applyAllTargets()`. -/
def heuristicStep (env : Env) (m : Model) (height_cm tol : ℚ) (errs : Errors5) : Model :=
  if errs.height.error ≥ tol then
    match getModifier m torsoName with
    | none => m
    | some current_torso =>
      let current_height := env.heightCm m
      let height_diff := height_cm - current_height
      if qabs height_diff > tol then
        let adjustment : ℚ := if height_diff > 0 then 1/10 else -(1/10)
        let new_torso := qmax (-1) (qmin 1 (current_torso + adjustment))
        applyAllTargets (setValue m torsoName new_torso)
      else m
  else m

/-- Sequencing after a limb adjustment whose uncaught raise propagates: on a
normal result the computation continues from the mutated model, the returned
value being unused by the outer loop. -/
def bindPhase {α : Type} (r : Except Model (Model × Option ℚ))
    (f : Model → Except Model α) : Except Model α :=
  match r with
  | .error e => .error e
  | .ok (m, _) => f m

/-- Sequencing after the adjust phase whose uncaught raise propagates. -/
def bindAdj {α : Type} (r : Except Model Model) (f : Model → Except Model α) :
    Except Model α :=
  match r with
  | .error e => .error e
  | .ok m => f m

/-- Sequencing after one outer iteration whose uncaught raise propagates. -/
def bindIter {α : Type} (r : Except Model (Model × Bool))
    (f : Model → Bool → Except Model α) : Except Model α :=
  match r with
  | .error e => .error e
  | .ok (m, b) => f m b

/-- Sequencing after the outer loop whose uncaught raise propagates. -/
def bindLoop {α : Type} (r : Except Model (Model × ℕ × Bool))
    (f : Model → ℕ → Bool → Except Model α) : Except Model α :=
  match r with
  | .error e => .error e
  | .ok (m, k, b) => f m k b

/-- Steps 1 and 2 of one outer iteration of `configure_human_exact`: adjust
the height, then the four limbs in the fixed priority order; an uncaught
measurement `KeyError` propagates. -/
def solverAdjustPhase (env : Env) (t : Targets) (tol : ℚ) (m : Model) :
    Except Model Model :=
  bindPhase (adjust_limb_quietly env (adjust_height_to_target env m t.height).1
      upperArmName upperArmName t.upper_arm tol) fun m2 =>
  bindPhase (adjust_limb_quietly env m2 lowerArmName lowerArmName t.lower_arm tol) fun m3 =>
  bindPhase (adjust_limb_quietly env m3 upperLegName upperLegName t.upper_leg tol) fun m4 =>
  bindPhase (adjust_limb_quietly env m4 lowerLegName lowerLegName t.lower_leg tol) fun m5 =>
  .ok m5

/-- One outer iteration of `configure_human_exact`: the adjust phase, the
joint convergence check on a fresh `get_all_errors()` report (`true` means
`break`), and on non-convergence the decoupling heuristic. -/
def solverIter (env : Env) (t : Targets) (tol : ℚ) (m : Model) :
    Except Model (Model × Bool) :=
  bindAdj (solverAdjustPhase env t tol m) fun m5 =>
    match get_all_errors env m5 t with
    | .error _ => .error m5
    | .ok errs =>
      if all_within_tolerance tol errs then .ok (m5, true)
      else .ok (heuristicStep env m5 t.height tol errs, false)

/-- The outer `for outer_iter in range(max_outer_iterations)` loop; the
result carries the final model, the number of iterations executed and
whether the loop ended through the convergence `break`. -/
def solverLoop (env : Env) (t : Targets) (tol : ℚ) :
    ℕ → Model → Except Model (Model × ℕ × Bool)
  | 0, m => .ok (m, 0, false)
  | n + 1, m =>
    bindIter (solverIter env t tol m) fun m1 b =>
      if b then .ok (m1, 1, true)
      else bindLoop (solverLoop env t tol n m1) fun mf k bb => .ok (mf, k + 1, bb)

/-- `configure_human_exact(human, ..., tolerance, max_outer_iterations)`:
the outer loop followed by the final `get_all_errors()` report. -/
def configure_human_exact (env : Env) (m : Model) (t : Targets) (tol : ℚ)
    (max_outer : ℕ) : Except Model (Model × Errors5) :=
  bindLoop (solverLoop env t tol max_outer m) fun mf _ _ =>
    match get_all_errors env mf t with
    | .error _ => .error mf
    | .ok fe => .ok (mf, fe)

/-- Decidable equality of raised-or-returned results, used to evaluate the
model on concrete inputs. -/
instance {e a : Type} [DecidableEq e] [DecidableEq a] : DecidableEq (Except e a) :=
  fun x y =>
    match x, y with
    | .error e1, .error e2 =>
      if h : e1 = e2 then isTrue (by rw [h]) else isFalse (by simp [h])
    | .ok a1, .ok a2 =>
      if h : a1 = a2 then isTrue (by rw [h]) else isFalse (by simp [h])
    | .error _, .ok _ => isFalse (by simp)
    | .ok _, .error _ => isFalse (by simp)

/-- Model component of a solver-phase result, on both exit paths (the model
carried by an uncaught `KeyError`, or the model of the normal result). -/
def okFstModel {α : Type} : Except Model (Model × α) → Model
  | .error m => m
  | .ok (m, _) => m

/-- Model component of the limb-adjust phase result, on both exit paths. -/
def phaseResModel : Except Model Model → Model
  | .error m => m
  | .ok m => m

/-- Euclidean segment length `math.sqrt(vec.dot(vec))` for
`vec = coord[v1] - coord[v2]`, over real 3-vectors. -/
noncomputable def dist3 (p q : ℝ × ℝ × ℝ) : ℝ :=
  Real.sqrt ((p.1 - q.1) * (p.1 - q.1) + (p.2.1 - q.2.1) * (p.2.1 - q.2.1) +
    (p.2.2 - q.2.2) * (p.2.2 - q.2.2))

/-- The accumulation loop of `Ruler.getMeasure`, starting with `vindex1`
and folding over the remaining chain entries. -/
noncomputable def chainLoop (coord : ℕ → ℝ × ℝ × ℝ) : ℕ → List ℕ → ℝ
  | _, [] => 0
  | v1, v2 :: rest => dist3 (coord v1) (coord v2) + chainLoop coord v2 rest

/-- The un-scaled measure of `Ruler.getMeasure`: `vindex1 = chain[0]`, then
the loop runs over the whole chain, so its first segment is the degenerate
`chain[0]`-to-`chain[0]` one. -/
noncomputable def chainMeasure (coord : ℕ → ℝ × ℝ × ℝ) : List ℕ → ℝ
  | [] => 0
  | v0 :: rest => chainLoop coord v0 (v0 :: rest)

/-- `Ruler.getMeasure(human, measurementname, mode)`: table lookup (`none`
models the `KeyError`), then `10.0 * measure` in metric mode and
`10.0 * measure * 0.393700787` in any other mode. -/
noncomputable def getMeasure (coord : ℕ → ℝ × ℝ × ℝ) (name mode : String) : Option ℝ :=
  (Measures name).map fun chain =>
    if mode = "metric" then 10 * chainMeasure coord chain
    else 10 * chainMeasure coord chain * 0.393700787

/-- Specified meaning of a chain measurement: the sum of the Euclidean
distances between consecutive chain vertices. -/
noncomputable def segSum (coord : ℕ → ℝ × ℝ × ℝ) (chain : List ℕ) : ℝ :=
  ((chain.zip chain.tail).map fun p => dist3 (coord p.1) (coord p.2)).sum

/-- Invariant threaded through a root-finder run: the best value lies in the
bracket and the recorded best error (when finite) is the error of the
recorded best value. -/
def searchInv (eval : ℚ → ℚ) (target : ℚ) (s : SearchState) : Prop :=
  s.low ≤ s.best_value ∧ s.best_value ≤ s.high ∧
    (s.best_error = none ∨ s.best_error = some (qabs (eval s.best_value - target)))

/-- Successor state of one iteration of the limb-adjustment loop: set the
modifier to the midpoint, re-deform, measure, and run the shared loop body;
`none` when the iteration returned early or its measurement lookup raised. -/
def limbNext (env : Env) (mname mdf : String) (target thresh : ℚ) :
    SearchState × Model → Option (SearchState × Model) := fun sm =>
  let mid := (sm.1.low + sm.1.high) / 2
  let m1 := applyAllTargets (setValue sm.2 mdf mid)
  match rulerMeasureQ env m1 mname with
  | .error _ => none
  | .ok cur =>
    match bisectUpdate cur target thresh sm.1 with
    | (_, true) => none
    | (s1, false) => some (s1, m1)

/-- Model-level trace of the loop of `adjust_limb_to_target` (threshold
`tolerance`) and `adjust_limb_quietly` (threshold `tolerance * 0.5`): the
search state and the model after `n` completed iterations, `none` once the
call has returned early or its measurement lookup has raised. -/
def limbStates (env : Env) (mname mdf : String) (target thresh : ℚ)
    (sm0 : SearchState × Model) : ℕ → Option (SearchState × Model)
  | 0 => some sm0
  | n + 1 => (limbStates env mname mdf target thresh sm0 n).bind
      (limbNext env mname mdf target thresh)

/-- Environment with a constant measurement response, used to exercise the
solver on a pathologically non-convergent model: every measurement and the
height read back `1000` regardless of the parameters. -/
def envConst : Env :=
  ⟨fun _ => 1000, fun _ _ => 1000, fun _ => 0⟩

/-- Model carrying the four limb modifiers and the torso modifier, all at 0. -/
def mFull : Model :=
  ⟨[(upperArmName, 0), (lowerArmName, 0), (upperLegName, 0), (lowerLegName, 0),
    (torsoName, 0)], 0, 0⟩

/-- Targets that the constant environment can never meet. -/
def tZero : Targets := ⟨0, 0, 0, 0, 0⟩

/-- Environment whose responses already sit on the targets `tConv`. -/
def envConv : Env :=
  ⟨fun _ => 170, fun _ _ => 42, fun _ => 0⟩

/-- Model with no modifiers at all (every limb adjustment is skipped). -/
def mEmpty : Model := ⟨[], 0, 0⟩

/-- Targets met immediately by `envConv`. -/
def tConv : Targets := ⟨170, 42, 42, 42, 42⟩

/-- Environment whose height reads back `100` and whose limb measurements
read back `0`. -/
def envH : Env := ⟨fun _ => 100, fun _ _ => 0, fun _ => 0⟩

/-- Model carrying only the torso modifier, at value 0. -/
def mTorso : Model := ⟨[(torsoName, 0)], 0, 0⟩

/-- Targets asking for height `200` and zero-length limbs. -/
def tH : Targets := ⟨200, 0, 0, 0, 0⟩

/-- Report produced by `get_all_errors` for `envH`, `mTorso` and `tH`. -/
def errsH : Errors5 := ⟨⟨100, 200, 100⟩, ⟨0, 0, 0⟩, ⟨0, 0, 0⟩, ⟨0, 0, 0⟩, ⟨0, 0, 0⟩⟩

/-- Environment whose limb measurements read back `7` and whose height reads
back `170`, independently of the parameters. -/
def envSeven : Env := ⟨fun _ => 170, fun _ _ => 7, fun _ => 0⟩

/-- Model carrying only the upper-arm modifier, at value 0. -/
def mUA : Model := ⟨[(upperArmName, 0)], 0, 0⟩

/-- Model state after the adjust phase of `envConv` on `mEmpty`: the height
search exits at its first midpoint, the limb searches are all skipped. -/
def m5W : Model := ⟨[], 1/2, 1⟩

/-- Report produced by `get_all_errors` for `envConv`, `m5W` and `tConv`. -/
def errsW : Errors5 := ⟨⟨170, 170, 0⟩, ⟨42, 42, 0⟩, ⟨42, 42, 0⟩, ⟨42, 42, 0⟩, ⟨42, 42, 0⟩⟩

/-- Vertex positions of the concrete two-vertex scenario: vertex 1 at
`(0, 0, 2)`, every other vertex at the origin. -/
noncomputable def coordTwo : ℕ → ℝ × ℝ × ℝ :=
  fun i => if i = 1 then (0, 0, 2) else (0, 0, 0)

/-- Vertex positions placing every vertex at the origin. -/
noncomputable def coordZero : ℕ → ℝ × ℝ × ℝ := fun _ => (0, 0, 0)


/-- The best-so-far update never increases the recorded best error. -/
theorem updateBest_obLe (mid e : ℚ) (s : SearchState) :
    obLeB (updateBest mid e s).best_error s.best_error = true := by
  cases h : s.best_error with
  | none => simp [updateBest, errIsLt, h, obLeB]
  | some b =>
    by_cases hlt : e < b
    · simp [updateBest, errIsLt, h, hlt, obLeB, le_of_lt hlt]
    · simp [updateBest, errIsLt, h, hlt, obLeB]

/-- When the best-so-far update leaves the recorded best error unchanged, it
also leaves the recorded best value unchanged (ties do not overwrite). -/
theorem updateBest_tie (mid e : ℚ) (s : SearchState)
    (h : (updateBest mid e s).best_error = s.best_error) :
    (updateBest mid e s).best_value = s.best_value := by
  by_cases hc : errIsLt e s.best_error = true
  · rw [updateBest, if_pos hc] at h ⊢
    cases hb : s.best_error with
    | none => rw [hb] at h; exact absurd h (by simp)
    | some b =>
      rw [hb] at h hc
      have he : e = b := by simpa using h
      have : e < b := by simpa [errIsLt] using hc
      exact absurd (he ▸ this) (lt_irrefl e)
  · rw [updateBest, if_neg hc]

/-- Negative arguments flip sign under the modelled `abs`. -/
theorem qabs_of_neg {x : ℚ} (h : x < 0) : qabs x = -x := if_pos h

/-- Nonnegative arguments are fixed by the modelled `abs`. -/
theorem qabs_of_nonneg {x : ℚ} (h : 0 ≤ x) : qabs x = x := if_neg (not_lt.mpr h)

/-- The modelled `abs` agrees with the mathematical absolute value. -/
theorem qabs_eq_abs (x : ℚ) : qabs x = |x| := by
  rw [qabs]
  split_ifs with h
  · exact (abs_of_neg h).symm
  · exact (abs_of_nonneg (le_of_not_lt h)).symm

/-- Both outcomes of the shared loop body keep the best-so-far fields of the
`updateBest` result (narrowing only touches the bracket). -/
theorem bisectUpdate_fst_best (cur target tol : ℚ) (s : SearchState) :
    ((bisectUpdate cur target tol s).1.best_error =
      (updateBest ((s.low + s.high) / 2) (qabs (cur - target)) s).best_error) ∧
    ((bisectUpdate cur target tol s).1.best_value =
      (updateBest ((s.low + s.high) / 2) (qabs (cur - target)) s).best_value) := by
  unfold bisectUpdate
  dsimp only
  split_ifs <;> exact ⟨rfl, rfl⟩

/-- C5: within a single root-finder call, the recorded `best_error` never
increases from one iteration to the next, and an iteration that leaves
`best_error` unchanged (in particular one whose error ties the current best)
keeps the earlier `best_value` rather than overwriting it. -/
theorem claim5_best_error_monotone (eval : ℚ → ℚ) (target tol : ℚ) (s0 : SearchState)
    (n : ℕ) (s s' : SearchState)
    (h1 : rfStates eval target tol s0 n = some s)
    (h2 : rfStates eval target tol s0 (n + 1) = some s') :
    obLeB s'.best_error s.best_error = true ∧
    (s'.best_error = s.best_error → s'.best_value = s.best_value) := by
  rw [rfStates, h1, Option.some_bind, rfNext] at h2
  cases hstep : rfStep eval target tol s with
  | mk s1 b =>
    rw [hstep] at h2
    cases b with
    | true => exact absurd h2 (by simp)
    | false =>
      have hs1 : s1 = s' := by simpa using h2
      clear h2
      subst hs1
      have hb := bisectUpdate_fst_best (eval ((s.low + s.high) / 2)) target tol s
      have hfst : (bisectUpdate (eval ((s.low + s.high) / 2)) target tol s).1 = s1 := by
        rw [← rfStep, hstep]
      rw [hfst] at hb
      obtain ⟨hbe, hbv⟩ := hb
      constructor
      · rw [hbe]; exact updateBest_obLe _ _ _
      · intro heq
        rw [hbv]
        exact updateBest_tie _ _ _ (by rw [← hbe]; exact heq)

set_option maxHeartbeats 1000000 in
attribute [local semireducible] Rat.add Rat.mul Rat.sub Rat.inv Rat.ofScientific in
/-- Concrete instance of the best-error monotonicity theorem after the first
iteration of a limb adjustment call. -/
theorem claim5_witness :
    obLeB (SearchState.mk (1/2) 1 (1/2) (some 1000)).best_error
        (SearchState.mk 0 1 (1/2) none).best_error = true :=
  (claim5_best_error_monotone (fun _ => 1000) 2000 (1/2) ⟨0, 1, 1/2, none⟩ 0 _ _
    (by decide) (by decide)).1

/-- One non-terminating iteration of the shared loop body preserves the
search invariant, provided the evaluation function is strictly monotone. -/
theorem searchInv_step (eval : ℚ → ℚ) (target tol : ℚ) (hmono : StrictMono eval)
    (s s1 : SearchState) (hInv : searchInv eval target s)
    (hstep : rfStep eval target tol s = (s1, false)) :
    searchInv eval target s1 := by
  obtain ⟨hl, hh, hbe⟩ := hInv
  have hlh : s.low ≤ s.high := le_trans hl hh
  have hmidl : s.low ≤ (s.low + s.high) / 2 := by linarith
  have hmidh : (s.low + s.high) / 2 ≤ s.high := by linarith
  rw [rfStep, bisectUpdate] at hstep
  by_cases htol : qabs (eval ((s.low + s.high) / 2) - target) < tol
  · rw [if_pos htol] at hstep
    exact absurd (congrArg Prod.snd hstep) (by simp)
  · rw [if_neg htol] at hstep
    by_cases hub : errIsLt (qabs (eval ((s.low + s.high) / 2) - target)) s.best_error = true
    · -- the midpoint became the new best value
      have hup : updateBest ((s.low + s.high) / 2)
          (qabs (eval ((s.low + s.high) / 2) - target)) s =
          { s with best_value := (s.low + s.high) / 2,
                   best_error := some (qabs (eval ((s.low + s.high) / 2) - target)) } := by
        rw [updateBest, if_pos hub]
      by_cases hct : eval ((s.low + s.high) / 2) < target
      · rw [if_pos hct] at hstep
        have hs1 : s1 = ⟨(s.low + s.high) / 2, s.high, (s.low + s.high) / 2,
            some (qabs (eval ((s.low + s.high) / 2) - target))⟩ := by
          have := congrArg Prod.fst hstep
          simp only at this
          rw [← this, hup]
        rw [hs1]
        exact ⟨le_refl _, hmidh, Or.inr rfl⟩
      · rw [if_neg hct] at hstep
        have hs1 : s1 = ⟨s.low, (s.low + s.high) / 2, (s.low + s.high) / 2,
            some (qabs (eval ((s.low + s.high) / 2) - target))⟩ := by
          have := congrArg Prod.fst hstep
          simp only at this
          rw [← this, hup]
        rw [hs1]
        exact ⟨hmidl, le_refl _, Or.inr rfl⟩
    · -- the best value is unchanged; the narrowed bracket still contains it
      have hup : updateBest ((s.low + s.high) / 2)
          (qabs (eval ((s.low + s.high) / 2) - target)) s = s := by
        rw [updateBest, if_neg hub]
      obtain ⟨b, hb⟩ : ∃ b, s.best_error = some b := by
        cases hbs : s.best_error with
        | none => exact absurd (by simp [errIsLt, hbs]) hub
        | some b => exact ⟨b, rfl⟩
      have hble : b ≤ qabs (eval ((s.low + s.high) / 2) - target) := by
        by_contra hc
        exact hub (by simp [errIsLt, hb]; linarith)
      have hbval : b = qabs (eval s.best_value - target) := by
        rcases hbe with h | h
        · rw [h] at hb; cases hb
        · rw [h] at hb; exact (Option.some_inj.mp hb).symm
      by_cases hct : eval ((s.low + s.high) / 2) < target
      · rw [if_pos hct] at hstep
        have hs1 : s1 = { s with low := (s.low + s.high) / 2 } := by
          have := congrArg Prod.fst hstep
          simp only at this
          rw [← this, hup]
        have hbvmid : (s.low + s.high) / 2 ≤ s.best_value := by
          by_contra hc
          push_neg at hc
          have hev : eval s.best_value < eval ((s.low + s.high) / 2) := hmono hc
          have hevt : eval s.best_value < target := lt_trans hev hct
          have he1 : qabs (eval ((s.low + s.high) / 2) - target) =
              target - eval ((s.low + s.high) / 2) := by
            rw [qabs_of_neg (by linarith), neg_sub]
          have he2 : qabs (eval s.best_value - target) = target - eval s.best_value := by
            rw [qabs_of_neg (by linarith), neg_sub]
          rw [hbval, he2, he1] at hble
          linarith
        rw [hs1]
        exact ⟨hbvmid, hh, hbe⟩
      · rw [if_neg hct] at hstep
        push_neg at hct
        have hs1 : s1 = { s with high := (s.low + s.high) / 2 } := by
          have := congrArg Prod.fst hstep
          simp only at this
          rw [← this, hup]
        have hbvmid : s.best_value ≤ (s.low + s.high) / 2 := by
          by_contra hc
          push_neg at hc
          have hev : eval ((s.low + s.high) / 2) < eval s.best_value := hmono hc
          have hevt : target < eval s.best_value := lt_of_le_of_lt hct hev
          have he1 : qabs (eval ((s.low + s.high) / 2) - target) =
              eval ((s.low + s.high) / 2) - target := by
            rw [qabs_of_nonneg (by linarith)]
          have he2 : qabs (eval s.best_value - target) = eval s.best_value - target := by
            rw [qabs_of_nonneg (by linarith)]
          rw [hbval, he2, he1] at hble
          linarith
        rw [hs1]
        exact ⟨hl, hbvmid, hbe⟩

/-- Every search state reachable in a root-finder run under a strictly
monotone evaluation function satisfies the search invariant. -/
theorem rfStates_searchInv (eval : ℚ → ℚ) (target tol : ℚ) (hmono : StrictMono eval)
    (s0 : SearchState) (h0 : searchInv eval target s0) :
    ∀ n s, rfStates eval target tol s0 n = some s → searchInv eval target s := by
  intro n
  induction n with
  | zero =>
    intro s h
    rw [rfStates] at h
    cases h
    exact h0
  | succ k ih =>
    intro s h
    rw [rfStates] at h
    cases hk : rfStates eval target tol s0 k with
    | none => rw [hk] at h; cases h
    | some sk =>
      rw [hk, Option.some_bind, rfNext] at h
      cases hstep : rfStep eval target tol sk with
      | mk s1 b =>
        rw [hstep] at h
        cases b with
        | true => exact absurd h (by simp)
        | false =>
          have hs : s1 = s := by simpa using h
          subst hs
          exact searchInv_step eval target tol hmono sk s1 (ih sk hk) hstep

/-- C2 (amended): the invariant `low ≤ best_value ≤ high` holds at every
point of a root-finder call provided the measurement response is strictly
monotone in the parameter; without that assumption it can fail (see the
counterexample). -/
theorem claim2_bracket_invariant (eval : ℚ → ℚ) (target tol : ℚ) (s0 : SearchState)
    (hmono : StrictMono eval) (hl : s0.low ≤ s0.best_value)
    (hh : s0.best_value ≤ s0.high) (hbe : s0.best_error = none)
    (n : ℕ) (s : SearchState) (h : rfStates eval target tol s0 n = some s) :
    s.low ≤ s.best_value ∧ s.best_value ≤ s.high := by
  have hInv := rfStates_searchInv eval target tol hmono s0 ⟨hl, hh, Or.inl hbe⟩ n s h
  exact ⟨hInv.1, hInv.2.1⟩

set_option maxHeartbeats 1000000 in
attribute [local semireducible] Rat.add Rat.mul Rat.sub Rat.inv Rat.ofScientific in
/-- Concrete instance of the bracket invariant theorem after one iteration of
an `adjust_limb_to_target` style call with the identity response. -/
theorem claim2_witness :
    (SearchState.mk (1/2) 1 (1/2) (some (3999/2))).low ≤
      (SearchState.mk (1/2) 1 (1/2) (some (3999/2))).best_value ∧
    (SearchState.mk (1/2) 1 (1/2) (some (3999/2))).best_value ≤
      (SearchState.mk (1/2) 1 (1/2) (some (3999/2))).high :=
  claim2_bracket_invariant (fun x => x) 2000 (1/2) ⟨0, 1, 1/2, none⟩
    (fun _ _ hab => hab) (by decide) (by decide) rfl 1 _ (by decide)

set_option maxHeartbeats 2000000 in
attribute [local semireducible] Rat.add Rat.mul Rat.sub Rat.inv Rat.ofScientific in
/-- C2 (counterexample): in an `adjust_limb_to_target` call (bracket `[0,1]`,
initial best value `0.5`, tolerance `0.5`) against a model whose measurement
response is constantly `1000` with target `2000`, after two iterations the
search state has `low = 3/4 > best_value = 1/2`, violating
`low ≤ best_value ≤ high`. -/
theorem claim2_counterexample :
    limbStates envConst upperArmName upperArmName 2000 (1/2)
        (⟨0, 1, 1/2, none⟩, mFull) 2 =
      some (⟨3/4, 1, 1/2, some 1000⟩,
        ⟨[(upperArmName, 3/4), (lowerArmName, 0), (upperLegName, 0), (lowerLegName, 0),
          (torsoName, 0)], 0, 2⟩) ∧
    ¬ ((SearchState.mk (3/4) 1 (1/2) (some 1000)).low ≤
        (SearchState.mk (3/4) 1 (1/2) (some 1000)).best_value ∧
      (SearchState.mk (3/4) 1 (1/2) (some 1000)).best_value ≤
        (SearchState.mk (3/4) 1 (1/2) (some 1000)).high) := by
  decide

/-- C10: when the named modifier does not exist on the model, both
`adjust_limb_to_target` and `adjust_limb_quietly` return `None` and leave the
model completely untouched (no `setValue`, no re-deformation). -/
theorem claim10_skip_missing_modifier (env : Env) (m : Model) (mdf mname : String)
    (target tol : ℚ) (k : ℕ) (h : getModifier m mdf = none) :
    adjust_limb_to_target env m mdf mname target tol k = .ok (m, none) ∧
    adjust_limb_quietly env m mdf mname target tol = .ok (m, none) := by
  constructor
  · rw [adjust_limb_to_target, h]
  · rw [adjust_limb_quietly, h]

/-- Concrete instance of the missing-modifier skip theorem on the empty
model. -/
theorem claim10_witness :
    adjust_limb_to_target envConst mEmpty upperArmName upperArmName 30 (1/2) 20 =
      .ok (mEmpty, none) ∧
    adjust_limb_quietly envConst mEmpty upperArmName upperArmName 30 (1/2) =
      .ok (mEmpty, none) :=
  claim10_skip_missing_modifier envConst mEmpty upperArmName upperArmName 30 (1/2) 20
    (by decide)

/-- The solver-side ruler call succeeds exactly on table names, returning the
engine's metric response. -/
theorem rulerMeasureQ_of_isSome (env : Env) (m : Model) (name : String)
    (h : (Measures name).isSome = true) :
    rulerMeasureQ env m name = .ok (env.measureVal m name) := by
  rw [rulerMeasureQ]
  cases hM : Measures name with
  | none => simp [hM] at h
  | some ch => rfl

/-- The five-entry report is always built successfully: all four limb names
are in the static table. -/
theorem get_all_errors_eq (env : Env) (m : Model) (t : Targets) :
    get_all_errors env m t = .ok
      ⟨mkErr (env.heightCm m) t.height, mkErr (env.measureVal m upperArmName) t.upper_arm,
       mkErr (env.measureVal m lowerArmName) t.lower_arm,
       mkErr (env.measureVal m upperLegName) t.upper_leg,
       mkErr (env.measureVal m lowerLegName) t.lower_leg⟩ := by
  rw [get_all_errors, rulerMeasureQ_of_isSome env m upperArmName (by decide),
    rulerMeasureQ_of_isSome env m lowerArmName (by decide),
    rulerMeasureQ_of_isSome env m upperLegName (by decide),
    rulerMeasureQ_of_isSome env m lowerLegName (by decide)]

/-- C3 (amended): only the modifier lookup is protected by `try/except`; a
measurement name missing from the static landmark table makes the ruler's
table lookup raise inside the loop, after the first `setValue` and
re-deformation have already happened, and the exception propagates out of the
per-constraint adjustment to its caller instead of being caught and skipped
there. -/
theorem claim3_uncaught_measurement (env : Env) (m : Model) (mdf mname : String)
    (target tol : ℚ) (k : ℕ) (v : ℚ)
    (hmod : getModifier m mdf = some v) (hname : Measures mname = none) :
    adjust_limb_to_target env m mdf mname target tol (k + 1) =
      .error (applyAllTargets (setValue m mdf ((0 + 1) / 2))) ∧
    adjust_limb_quietly env m mdf mname target tol =
      .error (applyAllTargets (setValue m mdf
        (((if env.modMin mdf ≥ 0 then (0 : ℚ) else -1) + 1) / 2))) := by
  constructor
  · simp only [adjust_limb_to_target, hmod, limbSearchGo, rulerMeasureQ, hname]
  · simp only [adjust_limb_quietly, hmod, limbSearchGo, rulerMeasureQ, hname]

set_option maxHeartbeats 1000000 in
attribute [local semireducible] Rat.add Rat.mul Rat.sub Rat.inv Rat.ofScientific in
/-- C3 (counterexample): calling `adjust_limb_quietly` with an existing
modifier but a measurement name absent from the table does not return the
caught-and-skipped result: the call raises (no normal result), and the model
has already been mutated by one deformation step when the exception escapes. -/
theorem claim3_counterexample :
    (adjust_limb_quietly envConst mFull upperArmName "measure/unknown" 30 (1/2)).toOption
      = none ∧
    (okFstModel (adjust_limb_quietly envConst mFull upperArmName "measure/unknown" 30
      (1/2))).deformCount = mFull.deformCount + 1 := by
  decide

set_option maxHeartbeats 1000000 in
attribute [local semireducible] Rat.add Rat.mul Rat.sub Rat.inv Rat.ofScientific in
/-- Concrete instance of the uncaught-measurement theorem. -/
theorem claim3_witness :
    adjust_limb_to_target envConst mFull upperArmName "measure/unknown" 30 (1/2) (19 + 1) =
      .error (applyAllTargets (setValue mFull upperArmName ((0 + 1) / 2))) ∧
    adjust_limb_quietly envConst mFull upperArmName "measure/unknown" 30 (1/2) =
      .error (applyAllTargets (setValue mFull upperArmName
        (((if envConst.modMin upperArmName ≥ 0 then (0 : ℚ) else -1) + 1) / 2))) :=
  claim3_uncaught_measurement envConst mFull upperArmName "measure/unknown" 30 (1/2) 19 0
    (by decide) (by decide)

set_option maxHeartbeats 1600000 in
/-- C6: when the very first midpoint of a root-finder call already has error
strictly below the (inner) tolerance, both the limb loop and the height loop
return that midpoint immediately after exactly one deformation step (one
evaluation of the measurement), running no further iterations. -/
theorem claim6_early_exit (env : Env) (m : Model) (mdf mname : String) (ch : List ℕ)
    (target tol htarget itol : ℚ) (k : ℕ) (s : SearchState)
    (hname : Measures mname = some ch)
    (hlimb : qabs (env.measureVal (applyAllTargets (setValue m mdf ((s.low + s.high) / 2)))
      mname - target) < tol)
    (hh : qabs (env.heightCm (setHeight m ((s.low + s.high) / 2)) - htarget) < itol) :
    limbSearchGo env mname mdf target tol (k + 1) s m =
      .ok (applyAllTargets (setValue m mdf ((s.low + s.high) / 2)),
        some ((s.low + s.high) / 2)) ∧
    adjustHeightGo env htarget itol (k + 1) s m =
      (setHeight m ((s.low + s.high) / 2), (s.low + s.high) / 2) ∧
    (applyAllTargets (setValue m mdf ((s.low + s.high) / 2))).deformCount =
      m.deformCount + 1 ∧
    (setHeight m ((s.low + s.high) / 2)).deformCount = m.deformCount + 1 := by
  refine ⟨?_, ?_, rfl, rfl⟩
  · rw [limbSearchGo]
    simp only [rulerMeasureQ, hname]
    rw [bisectUpdate, if_pos hlimb]
  · rw [adjustHeightGo, bisectUpdate, if_pos hh]

set_option maxHeartbeats 1000000 in
attribute [local semireducible] Rat.add Rat.mul Rat.sub Rat.inv Rat.ofScientific in
/-- Concrete instance of the early-exit theorem: a response already on target
terminates both loops at the first midpoint with one deformation each. -/
theorem claim6_witness :
    limbSearchGo envSeven upperArmName upperArmName 7 1 (19 + 1)
        ⟨0, 1, 1/2, none⟩ mUA =
      .ok (applyAllTargets (setValue mUA upperArmName
        (((SearchState.mk 0 1 (1/2) none).low + (SearchState.mk 0 1 (1/2) none).high) / 2)),
        some (((SearchState.mk 0 1 (1/2) none).low +
          (SearchState.mk 0 1 (1/2) none).high) / 2)) ∧
    adjustHeightGo envSeven 170 (3/10) (19 + 1) ⟨0, 1, 1/2, none⟩ mUA =
      (setHeight mUA (((SearchState.mk 0 1 (1/2) none).low +
        (SearchState.mk 0 1 (1/2) none).high) / 2),
        ((SearchState.mk 0 1 (1/2) none).low + (SearchState.mk 0 1 (1/2) none).high) / 2) ∧
    (applyAllTargets (setValue mUA upperArmName
      (((SearchState.mk 0 1 (1/2) none).low +
        (SearchState.mk 0 1 (1/2) none).high) / 2))).deformCount = mUA.deformCount + 1 ∧
    (setHeight mUA (((SearchState.mk 0 1 (1/2) none).low +
      (SearchState.mk 0 1 (1/2) none).high) / 2)).deformCount = mUA.deformCount + 1 :=
  claim6_early_exit envSeven mUA upperArmName upperArmName [8274, 10037] 7 1 170 (3/10) 19
    ⟨0, 1, 1/2, none⟩ (by decide) (by decide) (by decide)

/-- Each 3-D segment of zero extent measures zero. -/
theorem dist3_self (p : ℝ × ℝ × ℝ) : dist3 p p = 0 := by
  simp [dist3]

/-- The accumulation loop computes the polyline length of `v :: l`. -/
theorem chainLoop_eq_segSum (coord : ℕ → ℝ × ℝ × ℝ) (l : List ℕ) : ∀ v : ℕ,
    chainLoop coord v l =
      (((v :: l).zip l).map fun p => dist3 (coord p.1) (coord p.2)).sum := by
  induction l with
  | nil => intro v; simp [chainLoop]
  | cons w t ih => intro v; simp [chainLoop, ih w]

/-- The measure of the source loop (whose first segment is degenerate) equals
the specified sum of consecutive-segment lengths. -/
theorem chainMeasure_eq_segSum (coord : ℕ → ℝ × ℝ × ℝ) (chain : List ℕ) :
    chainMeasure coord chain = segSum coord chain := by
  cases chain with
  | nil => simp [chainMeasure, segSum]
  | cons v0 rest =>
    rw [chainMeasure, chainLoop, dist3_self, zero_add, chainLoop_eq_segSum coord rest v0,
      segSum]
    simp

/-- C8: for every landmark chain in the static table, metric-mode
`getMeasure` returns `10` times the sum of the Euclidean distances between
consecutive chain vertices; and for the chain `[0, 1]` with vertex `0` at the
origin and vertex `1` at `(0, 0, 2)` the metric measurement is exactly `20`. -/
theorem claim8_chain_measure :
    (∀ (name : String) (chain : List ℕ) (coord : ℕ → ℝ × ℝ × ℝ),
      Measures name = some chain →
      getMeasure coord name "metric" = some (10 * segSum coord chain)) ∧
    10 * chainMeasure coordTwo [0, 1] = 20 := by
  constructor
  · intro name chain coord h
    rw [getMeasure, h, Option.map_some', if_pos rfl, chainMeasure_eq_segSum]
  · have hc0 : coordTwo 0 = ((0 : ℝ), (0 : ℝ), (0 : ℝ)) := by norm_num [coordTwo]
    have hc1 : coordTwo 1 = ((0 : ℝ), (0 : ℝ), (2 : ℝ)) := by norm_num [coordTwo]
    have hd : dist3 ((0 : ℝ), (0 : ℝ), (0 : ℝ)) ((0 : ℝ), (0 : ℝ), (2 : ℝ)) = 2 := by
      simp only [dist3]
      norm_num
      rw [show (4 : ℝ) = 2 ^ 2 by norm_num]
      exact Real.sqrt_sq (by norm_num)
    rw [chainMeasure, chainLoop, chainLoop, chainLoop, hc0, hc1, dist3_self, hd]
    norm_num

/-- Concrete instance of the chain-measure theorem at the upper-arm table
entry with all vertices at the origin. -/
theorem claim8_witness :
    getMeasure coordZero upperArmName "metric" =
      some (10 * segSum coordZero [8274, 10037]) :=
  claim8_chain_measure.1 upperArmName [8274, 10037] coordZero (by decide)

/-- C9: in any mode other than `"metric"`, `getMeasure` returns exactly the
metric-mode result multiplied by `0.393700787`; the mode only affects this
final scaling. -/
theorem claim9_mode_scaling (coord : ℕ → ℝ × ℝ × ℝ) (name mode : String)
    (h : mode ≠ "metric") :
    getMeasure coord name mode = (getMeasure coord name "metric").map (· * 0.393700787) := by
  cases hM : Measures name with
  | none => simp [getMeasure, hM]
  | some chain => simp [getMeasure, hM, h]

/-- Concrete instance of the mode-scaling theorem in imperial mode. -/
theorem claim9_witness :
    getMeasure coordZero upperArmName "imperial" =
      (getMeasure coordZero upperArmName "metric").map (· * 0.393700787) :=
  claim9_mode_scaling coordZero upperArmName "imperial" (by decide)

/-- Swapping the operands of a difference does not change its modelled
absolute value. -/
theorem qabs_sub_comm (a b : ℚ) : qabs (a - b) = qabs (b - a) := by
  rw [qabs_eq_abs, qabs_eq_abs, abs_sub_comm]

/-- C7: after a joint check whose report `errs` came from `get_all_errors` at
the current state, if the height error strictly exceeds the (nonnegative)
tolerance then the decoupling heuristic nudges the torso vertical-scale value
by `0.1` in the sign of `target_height - current_height`, clamps it to
`[-1, 1]` and re-deforms; when the torso modifier does not exist the model is
returned unchanged, silently. -/
theorem claim7_decoupling_heuristic (env : Env) (t : Targets) (tol : ℚ) (m : Model)
    (errs : Errors5) (hga : get_all_errors env m t = .ok errs)
    (herr : tol < errs.height.error) :
    heuristicStep env m t.height tol errs =
      match getModifier m torsoName with
      | none => m
      | some v => applyAllTargets (setValue m torsoName
          (qmax (-1) (qmin 1 (v +
            (if t.height - env.heightCm m > 0 then (1/10 : ℚ) else -(1/10)))))) := by
  rw [get_all_errors_eq] at hga
  injection hga with hE
  subst hE
  simp only [mkErr] at herr
  have herr2 : qabs (t.height - env.heightCm m) > tol := by
    rw [qabs_sub_comm]; exact herr
  rw [heuristicStep]
  simp only [mkErr]
  rw [if_pos (le_of_lt herr)]
  cases hv : getModifier m torsoName with
  | none => rfl
  | some v => simp [herr2]

set_option maxHeartbeats 1000000 in
attribute [local semireducible] Rat.add Rat.mul Rat.sub Rat.inv Rat.ofScientific in
/-- Concrete instance of the decoupling-heuristic theorem: height reads 100
against target 200, so the torso value is nudged by `+0.1`. -/
theorem claim7_witness :
    heuristicStep envH mTorso tH.height (1/2) errsH =
      match getModifier mTorso torsoName with
      | none => mTorso
      | some v => applyAllTargets (setValue mTorso torsoName
          (qmax (-1) (qmin 1 (v +
            (if tH.height - envH.heightCm mTorso > 0 then (1/10 : ℚ) else -(1/10)))))) :=
  claim7_decoupling_heuristic envH tH (1/2) mTorso errsH (by decide) (by decide)

/-- Deformation counter effect of `applyAllTargets`. -/
@[simp] theorem deformCount_applyAllTargets (m : Model) :
    (applyAllTargets m).deformCount = m.deformCount + 1 := rfl

/-- Deformation counter effect of `setValue` (none: only the deformation that
follows it counts). -/
@[simp] theorem deformCount_setValue (m : Model) (name : String) (v : ℚ) :
    (setValue m name v).deformCount = m.deformCount := rfl

/-- Deformation counter effect of `setHeight`. -/
@[simp] theorem deformCount_setHeight (m : Model) (v : ℚ) :
    (setHeight m v).deformCount = m.deformCount + 1 := rfl

/-- Result-model projection of an uncaught raise. -/
@[simp] theorem okFstModel_error {α : Type} (m : Model) :
    okFstModel (α := α) (.error m) = m := rfl

/-- Result-model projection of a normal result. -/
@[simp] theorem okFstModel_ok {α : Type} (m : Model) (x : α) :
    okFstModel (.ok (m, x)) = m := rfl

/-- Result-model projection of a raise leaving the adjust phase. -/
@[simp] theorem phaseResModel_error (m : Model) : phaseResModel (.error m) = m := rfl

/-- Result-model projection of a normal adjust-phase result. -/
@[simp] theorem phaseResModel_ok (m : Model) : phaseResModel (.ok m) = m := rfl

/-- Raise propagation through the limb-adjustment sequencing. -/
@[simp] theorem bindPhase_error {α : Type} (e : Model) (f : Model → Except Model α) :
    bindPhase (.error e) f = .error e := rfl

/-- Normal-result sequencing after a limb adjustment. -/
@[simp] theorem bindPhase_ok {α : Type} (m : Model) (x : Option ℚ)
    (f : Model → Except Model α) : bindPhase (.ok (m, x)) f = f m := rfl

/-- Raise propagation through the adjust-phase sequencing. -/
@[simp] theorem bindAdj_error {α : Type} (e : Model) (f : Model → Except Model α) :
    bindAdj (.error e) f = .error e := rfl

/-- Normal-result sequencing after the adjust phase. -/
@[simp] theorem bindAdj_ok {α : Type} (m : Model) (f : Model → Except Model α) :
    bindAdj (.ok m) f = f m := rfl

/-- Raise propagation through the outer-iteration sequencing. -/
@[simp] theorem bindIter_error {α : Type} (e : Model)
    (f : Model → Bool → Except Model α) : bindIter (.error e) f = .error e := rfl

/-- Normal-result sequencing after one outer iteration. -/
@[simp] theorem bindIter_ok {α : Type} (m : Model) (b : Bool)
    (f : Model → Bool → Except Model α) : bindIter (.ok (m, b)) f = f m b := rfl

/-- Raise propagation through the outer-loop sequencing. -/
@[simp] theorem bindLoop_error {α : Type} (e : Model)
    (f : Model → ℕ → Bool → Except Model α) : bindLoop (.error e) f = .error e := rfl

/-- Normal-result sequencing after the outer loop. -/
@[simp] theorem bindLoop_ok {α : Type} (m : Model) (k : ℕ) (b : Bool)
    (f : Model → ℕ → Bool → Except Model α) : bindLoop (.ok (m, k, b)) f = f m k b := rfl

/-- The height loop performs at most `fuel + 1` deformation steps: one per
iteration plus the final re-application of the best value. -/
theorem adjustHeightGo_deform (env : Env) (target itol : ℚ) :
    ∀ (k : ℕ) (s : SearchState) (m : Model),
      (adjustHeightGo env target itol k s m).1.deformCount ≤ m.deformCount + (k + 1) := by
  intro k
  induction k with
  | zero =>
    intro s m
    rw [adjustHeightGo]
    simp
  | succ n ih =>
    intro s m
    rw [adjustHeightGo]
    cases hbu : bisectUpdate (env.heightCm (setHeight m ((s.low + s.high) / 2)))
        target itol s with
    | mk s1 b =>
      cases b
      · simp only [hbu]
        have := ih s1 (setHeight m ((s.low + s.high) / 2))
        simp at this
        omega
      · simp only [hbu]
        simp

/-- The limb loop performs at most `fuel + 1` deformation steps on every exit
path, the uncaught measurement raise included. -/
theorem limbSearchGo_deform (env : Env) (mname mdf : String) (target thresh : ℚ) :
    ∀ (k : ℕ) (s : SearchState) (m : Model),
      (okFstModel (limbSearchGo env mname mdf target thresh k s m)).deformCount ≤
        m.deformCount + (k + 1) := by
  intro k
  induction k with
  | zero =>
    intro s m
    rw [limbSearchGo]
    simp
  | succ n ih =>
    intro s m
    rw [limbSearchGo]
    cases hr : rulerMeasureQ env (applyAllTargets (setValue m mdf ((s.low + s.high) / 2)))
        mname with
    | error e =>
      simp only [hr]
      simp
    | ok cur =>
      simp only [hr]
      cases hbu : bisectUpdate cur target thresh s with
      | mk s1 b =>
        cases b
        · simp only [hbu]
          have := ih s1 (applyAllTargets (setValue m mdf ((s.low + s.high) / 2)))
          simp at this
          omega
        · simp only [hbu]
          simp

/-- `adjust_height_to_target` performs at most 16 deformation steps. -/
theorem adjust_height_to_target_deform (env : Env) (m : Model) (target : ℚ) :
    (adjust_height_to_target env m target).1.deformCount ≤ m.deformCount + 16 := by
  have := adjustHeightGo_deform env target (3/10) 15 ⟨0, 1, 1/2, none⟩ m
  rw [adjust_height_to_target]
  omega

/-- `adjust_limb_quietly` performs at most 16 deformation steps on every exit
path. -/
theorem adjust_limb_quietly_deform (env : Env) (m : Model) (mdf mname : String)
    (target tol : ℚ) :
    (okFstModel (adjust_limb_quietly env m mdf mname target tol)).deformCount ≤
      m.deformCount + 16 := by
  rw [adjust_limb_quietly]
  cases h : getModifier m mdf with
  | none => simp
  | some v =>
    simp only [h]
    have := limbSearchGo_deform env mname mdf target (tol * (1/2)) 15
      ⟨if env.modMin mdf ≥ 0 then 0 else -1, 1, 0, none⟩ m
    omega

/-- The decoupling heuristic performs at most one deformation step. -/
theorem heuristicStep_deform (env : Env) (m : Model) (hc tol : ℚ) (errs : Errors5) :
    (heuristicStep env m hc tol errs).deformCount ≤ m.deformCount + 1 := by
  rw [heuristicStep]
  by_cases h1 : errs.height.error ≥ tol
  · rw [if_pos h1]
    cases hg : getModifier m torsoName with
    | none => simp
    | some v =>
      simp only [hg]
      by_cases h2 : qabs (hc - env.heightCm m) > tol
      · rw [if_pos h2]; simp
      · rw [if_neg h2]; simp
  · rw [if_neg h1]; simp

/-- The height-plus-four-limbs adjust phase performs at most
`16 + 4 × 16 = 80` deformation steps on every exit path. -/
theorem solverAdjustPhase_deform (env : Env) (t : Targets) (tol : ℚ) (m : Model) :
    (phaseResModel (solverAdjustPhase env t tol m)).deformCount ≤ m.deformCount + 80 := by
  rw [solverAdjustPhase]
  have h1 := adjust_height_to_target_deform env m t.height
  have h2 := adjust_limb_quietly_deform env (adjust_height_to_target env m t.height).1
    upperArmName upperArmName t.upper_arm tol
  cases c2 : adjust_limb_quietly env (adjust_height_to_target env m t.height).1
      upperArmName upperArmName t.upper_arm tol with
  | error e => simp only [c2, bindPhase_error]; rw [c2] at h2; simp at h2 ⊢; omega
  | ok p2 =>
    obtain ⟨m2, r2⟩ := p2
    rw [c2] at h2; simp at h2
    simp only [c2, bindPhase_ok]
    have h3 := adjust_limb_quietly_deform env m2 lowerArmName lowerArmName t.lower_arm tol
    cases c3 : adjust_limb_quietly env m2 lowerArmName lowerArmName t.lower_arm tol with
    | error e => simp only [c3, bindPhase_error]; rw [c3] at h3; simp at h3 ⊢; omega
    | ok p3 =>
      obtain ⟨m3, r3⟩ := p3
      rw [c3] at h3; simp at h3
      simp only [c3, bindPhase_ok]
      have h4 := adjust_limb_quietly_deform env m3 upperLegName upperLegName t.upper_leg tol
      cases c4 : adjust_limb_quietly env m3 upperLegName upperLegName t.upper_leg tol with
      | error e => simp only [c4, bindPhase_error]; rw [c4] at h4; simp at h4 ⊢; omega
      | ok p4 =>
        obtain ⟨m4, r4⟩ := p4
        rw [c4] at h4; simp at h4
        simp only [c4, bindPhase_ok]
        have h5 := adjust_limb_quietly_deform env m4 lowerLegName lowerLegName t.lower_leg tol
        cases c5 : adjust_limb_quietly env m4 lowerLegName lowerLegName t.lower_leg tol with
        | error e => simp only [c5, bindPhase_error]; rw [c5] at h5; simp at h5 ⊢; omega
        | ok p5 =>
          obtain ⟨m5, r5⟩ := p5
          rw [c5] at h5; simp at h5
          simp only [c5, bindPhase_ok]
          simp
          omega

/-- One outer iteration performs at most `80 + 1 = 81` deformation steps on
every exit path. -/
theorem solverIter_deform (env : Env) (t : Targets) (tol : ℚ) (m : Model) :
    (okFstModel (solverIter env t tol m)).deformCount ≤ m.deformCount + 81 := by
  rw [solverIter]
  have hp := solverAdjustPhase_deform env t tol m
  cases cp : solverAdjustPhase env t tol m with
  | error e => simp only [cp, bindAdj_error]; rw [cp] at hp; simp at hp ⊢; omega
  | ok m5 =>
    rw [cp] at hp; simp at hp
    simp only [cp, bindAdj_ok]
    cases cg : get_all_errors env m5 t with
    | error s => simp only [cg]; simp; omega
    | ok errs =>
      simp only [cg]
      by_cases hw : all_within_tolerance tol errs = true
      · rw [if_pos hw]; simp; omega
      · rw [if_neg hw]
        have := heuristicStep_deform env m5 t.height tol errs
        simp
        omega

/-- The outer loop performs at most `81` deformation steps per outer
iteration, on every exit path. -/
theorem solverLoop_deform (env : Env) (t : Targets) (tol : ℚ) :
    ∀ (n : ℕ) (m : Model),
      (okFstModel (solverLoop env t tol n m)).deformCount ≤ m.deformCount + n * 81 := by
  intro n
  induction n with
  | zero => intro m; rw [solverLoop]; simp
  | succ k ih =>
    intro m
    rw [solverLoop]
    have hi := solverIter_deform env t tol m
    cases ci : solverIter env t tol m with
    | error e => simp only [ci, bindIter_error]; rw [ci] at hi; simp at hi ⊢; omega
    | ok p =>
      obtain ⟨m1, b⟩ := p
      rw [ci] at hi; simp at hi
      cases b
      · simp only [ci, bindIter_ok]
        have hl := ih m1
        cases cl : solverLoop env t tol k m1 with
        | error e => simp only [cl, bindLoop_error]; rw [cl] at hl; simp at hl ⊢; omega
        | ok q =>
          obtain ⟨mf, kk, bb⟩ := q
          simp only [cl, bindLoop_ok]
          rw [cl] at hl; simp at hl
          simp
          omega
      · simp only [ci, bindIter_ok]
        simp
        omega

/-- C1 (amended): the total number of deformation steps of a
`configure_human_exact` run is at most
`max_outer_iterations × ((height_inner_cap + 1) + 4 × (limb_inner_cap + 1) + 1)`:
each inner search may spend one extra deformation re-applying its best value
after exhausting its cap, and the decoupling heuristic adds one more per
outer iteration.  The bound claimed without these `+1` terms is exceeded (see
the counterexample). -/
theorem claim1_deformation_bound (env : Env) (t : Targets) (tol : ℚ) (m : Model)
    (n : ℕ) :
    (okFstModel (configure_human_exact env m t tol n)).deformCount ≤
      m.deformCount + n * ((15 + 1) + 4 * (15 + 1) + 1) := by
  have hl := solverLoop_deform env t tol n m
  rw [configure_human_exact]
  cases c : solverLoop env t tol n m with
  | error e => simp only [c, bindLoop_error]; rw [c] at hl; simp at hl ⊢; omega
  | ok p =>
    obtain ⟨mf, k, b⟩ := p
    rw [c] at hl; simp at hl
    simp only [c, bindLoop_ok]
    cases cg : get_all_errors env mf t with
    | error s => simp only [cg]; simp; omega
    | ok fe => simp only [cg]; simp; omega

set_option maxHeartbeats 4000000 in
set_option maxRecDepth 4000 in
attribute [local semireducible] Rat.add Rat.mul Rat.sub Rat.inv Rat.ofScientific in
/-- C1 (counterexample): with one outer iteration, tolerance `0.5`, constant
measurement responses `1000` and targets `0` (no convergence anywhere), the
solver performs `81` deformation steps — `16` in the height search, `16` in
each of the four limb searches, and `1` in the decoupling heuristic — which
exceeds the claimed bound `1 × (15 + 4 × 15) = 75`. -/
theorem claim1_counterexample :
    ((configure_human_exact envConst mFull tZero (1/2) 1).toOption.map
      (fun r => r.1.deformCount)) = some 81 ∧ ¬ (81 ≤ 1 * (15 + 4 * 15)) := by
  decide

/-- The Boolean joint check holds exactly when all five errors are strictly
below the tolerance. -/
theorem all_within_iff (tol : ℚ) (e : Errors5) :
    all_within_tolerance tol e = true ↔
      (e.height.error < tol ∧ e.upper_arm.error < tol ∧ e.lower_arm.error < tol ∧
       e.upper_leg.error < tol ∧ e.lower_leg.error < tol) := by
  simp [all_within_tolerance, Bool.and_eq_true, decide_eq_true_eq, and_assoc]

/-- An outer iteration reporting convergence did find a report whose five
errors all pass the joint check at the returned state. -/
theorem solverIter_converged (env : Env) (t : Targets) (tol : ℚ) (m m' : Model)
    (h : solverIter env t tol m = .ok (m', true)) :
    ∃ errs, get_all_errors env m' t = .ok errs ∧
      all_within_tolerance tol errs = true := by
  rw [solverIter] at h
  cases cp : solverAdjustPhase env t tol m with
  | error e => simp only [cp, bindAdj_error] at h; exact absurd h (by simp)
  | ok m5 =>
    simp only [cp, bindAdj_ok] at h
    cases cg : get_all_errors env m5 t with
    | error s => simp only [cg] at h; exact absurd h (by simp)
    | ok errs =>
      simp only [cg] at h
      by_cases hw : all_within_tolerance tol errs = true
      · rw [if_pos hw] at h
        simp only [Except.ok.injEq, Prod.mk.injEq] at h
        exact ⟨errs, h.1 ▸ cg, hw⟩
      · rw [if_neg hw] at h
        simp at h

/-- The outer loop ends without the convergence flag only by running all its
iterations, and ends with the flag only at a state whose fresh report passes
the joint check. -/
theorem solverLoop_break (env : Env) (t : Targets) (tol : ℚ) :
    ∀ (n : ℕ) (m mf : Model) (k : ℕ) (b : Bool),
      solverLoop env t tol n m = .ok (mf, k, b) →
      (b = false → k = n) ∧
      (b = true → ∃ errs, get_all_errors env mf t = .ok errs ∧
        all_within_tolerance tol errs = true) := by
  intro n
  induction n with
  | zero =>
    intro m mf k b h
    rw [solverLoop] at h
    have h2 := Except.ok.inj h
    have hk : 0 = k := congrArg (fun p => p.2.1) h2
    have hbb : false = b := congrArg (fun p => p.2.2) h2
    exact ⟨fun _ => hk.symm, fun hb => absurd (hbb.trans hb) (by simp)⟩
  | succ kk ih =>
    intro m mf k b h
    rw [solverLoop] at h
    cases ci : solverIter env t tol m with
    | error e =>
      rw [ci, bindIter_error] at h
      exact absurd h (by simp)
    | ok p =>
      obtain ⟨m1, bb⟩ := p
      rw [ci, bindIter_ok] at h
      cases bb
      · have hq : bindLoop (solverLoop env t tol kk m1)
            (fun mf k bb => Except.ok (mf, k + 1, bb)) = .ok (mf, k, b) := h
        clear h
        cases cl : solverLoop env t tol kk m1 with
        | error e =>
          rw [cl, bindLoop_error] at hq
          exact absurd hq (by simp)
        | ok q =>
          obtain ⟨mf2, k2, b2⟩ := q
          rw [cl, bindLoop_ok] at hq
          have hq2 : (Except.ok (mf2, k2 + 1, b2) : Except Model (Model × ℕ × Bool)) =
              .ok (mf, k, b) := hq
          have h2 := Except.ok.inj hq2
          have ha : mf2 = mf := congrArg Prod.fst h2
          have hk : k2 + 1 = k := congrArg (fun p => p.2.1) h2
          have hbb : b2 = b := congrArg (fun p => p.2.2) h2
          have hih := ih m1 mf2 k2 b2 cl
          constructor
          · intro hb
            have hk2 : k2 = kk := hih.1 (hbb.trans hb)
            rw [← hk, hk2]
          · intro hb
            obtain ⟨errs, hg, hw⟩ := hih.2 (hbb.trans hb)
            exact ⟨errs, ha ▸ hg, hw⟩
      · have h1 : (Except.ok (m1, 1, true) : Except Model (Model × ℕ × Bool)) =
            .ok (mf, k, b) := h
        have h2 := Except.ok.inj h1
        have ha : m1 = mf := congrArg Prod.fst h2
        have hbb : true = b := congrArg (fun p => p.2.2) h2
        refine ⟨fun hb => absurd (hbb.trans hb) (by simp), fun _ => ?_⟩
        exact ha ▸ solverIter_converged env t tol m m1 ci

/-- C4: an outer iteration breaks the loop exactly when the fresh
`get_all_errors` report after its adjust phase has all five errors strictly
below the tolerance; when at least one error is not, the iteration instead
ends with the decoupling heuristic and the loop goes on, exhausting all
`max_outer_iterations` if no check ever passes. -/
theorem claim4_joint_convergence (env : Env) (t : Targets) (tol : ℚ) :
    (∀ (m m5 : Model) (errs : Errors5), solverAdjustPhase env t tol m = .ok m5 →
      get_all_errors env m5 t = .ok errs →
      ((errs.height.error < tol ∧ errs.upper_arm.error < tol ∧
        errs.lower_arm.error < tol ∧ errs.upper_leg.error < tol ∧
        errs.lower_leg.error < tol) ↔ solverIter env t tol m = .ok (m5, true)) ∧
      (¬ (errs.height.error < tol ∧ errs.upper_arm.error < tol ∧
        errs.lower_arm.error < tol ∧ errs.upper_leg.error < tol ∧
        errs.lower_leg.error < tol) →
        solverIter env t tol m = .ok (heuristicStep env m5 t.height tol errs, false))) ∧
    (∀ (n : ℕ) (m mf : Model) (k : ℕ) (b : Bool),
      solverLoop env t tol n m = .ok (mf, k, b) →
      (b = false → k = n) ∧
      (b = true → ∃ errs, get_all_errors env mf t = .ok errs ∧
        errs.height.error < tol ∧ errs.upper_arm.error < tol ∧
        errs.lower_arm.error < tol ∧ errs.upper_leg.error < tol ∧
        errs.lower_leg.error < tol)) := by
  constructor
  · intro m m5 errs hp hg
    refine ⟨⟨?_, ?_⟩, ?_⟩
    · intro hfive
      rw [solverIter]
      simp only [hp, bindAdj_ok, hg]
      rw [if_pos ((all_within_iff tol errs).mpr hfive)]
    · intro hiter
      rw [solverIter] at hiter
      simp only [hp, bindAdj_ok, hg] at hiter
      by_cases hw : all_within_tolerance tol errs = true
      · exact (all_within_iff tol errs).mp hw
      · rw [if_neg hw] at hiter
        simp at hiter
    · intro hnot
      rw [solverIter]
      simp only [hp, bindAdj_ok, hg]
      rw [if_neg (fun hw => hnot ((all_within_iff tol errs).mp hw))]
  · intro n m mf k b h
    have hb := solverLoop_break env t tol n m mf k b h
    refine ⟨hb.1, fun htrue => ?_⟩
    obtain ⟨errs, hg, hw⟩ := hb.2 htrue
    exact ⟨errs, hg, (all_within_iff tol errs).mp hw⟩

set_option maxHeartbeats 1000000 in
attribute [local semireducible] Rat.add Rat.mul Rat.sub Rat.inv Rat.ofScientific in
/-- Concrete instance of the joint-convergence theorem: with all five errors
already zero after the adjust phase, the first outer iteration breaks. -/
theorem claim4_witness :
    solverIter envConv tConv (1/2) mEmpty = .ok (m5W, true) :=
  ((claim4_joint_convergence envConv tConv (1/2)).1 mEmpty m5W errsW
    (by decide) (by decide)).1.mp (by decide)

end GenerateHuman
